import Mathlib

/-!
Verification of the transaction canonicalization, hashing and address-derivation
subsystem of the codechain-sdk-js repository, centred on
`src/core/transaction/AssetComposeTransaction.ts` and
`src/core/transaction/AssetOutPoint.ts`.

Hex strings are modelled as `List Char`; byte buffers as `List Nat`
(each element a byte value). The cryptographic hash functions
(blake256, blake256WithKey, blake128) are external collaborators and are
passed in as a `Crypto` record of functions, so every statement quantifies
over an arbitrary hash engine.
-/

set_option autoImplicit false

/-- Hex digit character for a value below 16, lowercase, as produced by
JavaScript `Number.prototype.toString(16)`. -/
def digitChar (n : Nat) : Char :=
  if n < 10 then Char.ofNat (48 + n) else Char.ofNat (87 + n)

/-- Lowercase hex form of a natural number, as produced by JavaScript
`toString(16)` (so `0` renders as `"0"`). -/
def natToHex (n : Nat) : List Char :=
  if n < 16 then [digitChar n] else natToHex (n / 16) ++ [digitChar (n % 16)]
termination_by n
decreasing_by simp_wf; omega

/-- Numeric value of a lowercase hex digit character. -/
def hexVal (c : Char) : Nat :=
  if 97 ≤ c.toNat then c.toNat - 87 else c.toNat - 48

/-- Parse a lowercase hex string (no 0x marker) into a natural number. -/
def hexToNat (s : List Char) : Nat :=
  s.foldl (fun a c => a * 16 + hexVal c) 0

/-- Convert a hex string into its byte sequence, two digits per byte. -/
def hexToBytes : List Char → List Nat
  | a :: b :: rest => (hexVal a * 16 + hexVal b) :: hexToBytes rest
  | _ => []

/-- UTF-8 bytes of a character list; all the strings hashed by the code are
ASCII so one byte per character is faithful. -/
def charsToBytes (l : List Char) : List Nat :=
  l.map Char.toNat

/-- UTF-8 bytes of a string (ASCII range). -/
def strToBytes (s : String) : List Nat :=
  charsToBytes s.data

/-- 160-bit hash value, held as its lowercase hex string (`value` in the
TypeScript class). External value type from codechain-primitives. -/
structure H160 where
  value : List Char
deriving DecidableEq, Repr

/-- 256-bit hash value, held as its lowercase hex string (`value` in the
TypeScript class). External value type from codechain-primitives. -/
structure H256 where
  value : List Char
deriving DecidableEq, Repr

/-- Unsigned 64-bit integer value type (external collaborator). Modelled from
the spec: an unsigned integer with a defined maximum; the arithmetic used by
the compose transaction (`U64.plus`) is plain addition (the source flags
overflow checking as an open FIXME). -/
structure U64 where
  value : Nat
deriving DecidableEq, Repr

/-- Modelled from the spec: `U64.ensure` applied to a `0x`-prefixed lowercase
hex string, as appears in every `fromJSON` amount field. -/
def U64.ensureHex (s : List Char) : U64 :=
  ⟨hexToNat (s.drop 2)⟩

/-- Platform account address (external collaborator). Modelled from the spec:
an opaque value with a string form; `ensure` and `toString` are mutually
inverse. -/
structure PlatformAddress where
  value : String
deriving DecidableEq, Repr

/-- Modelled from the spec: `PlatformAddress.ensure` on a string form. -/
def PlatformAddress.ensure (s : String) : PlatformAddress :=
  ⟨s⟩

/-- An input value for the canonical encoder: a raw byte string,
a non-negative integer, a text string, or an ordered list of values. -/
inductive EncodeObject where
  | nat (n : Nat)
  | int (i : Int)
  | str (s : String)
  | bytes (b : List Nat)
  | list (xs : List EncodeObject)
deriving Repr

/-- Minimal big-endian byte form of a natural number; 0 encodes as empty. -/
def natToBE (n : Nat) : List Nat :=
  if n = 0 then [] else natToBE (n / 256) ++ [n % 256]
termination_by n
decreasing_by simp_wf; omega

/-- Modelled from the spec: the canonical encoder's length header, used for
byte strings (base 128) and lists (base 192). -/
def rlpLenHeader (base : Nat) (n : Nat) : List Nat :=
  if n ≤ 55 then [base + n] else (base + 55 + (natToBE n).length) :: natToBE n

/-- Modelled from the spec: canonical encoding of a byte string — a single
byte below 0x80 is self-describing, anything else gets a length header. -/
def rlpStrEncode (b : List Nat) : List Nat :=
  match b with
  | [x] => if x < 128 then [x] else [129, x]
  | _ => rlpLenHeader 128 b.length ++ b

mutual
/-- Modelled from the spec: the recursive canonical (RLP-style) encoder,
`encode(value) -> bytes`. Integers become minimal big-endian byte strings
(negative integers do not occur on the wire and are mapped through `toNat`). -/
def rlpEncode : EncodeObject → List Nat
  | .nat n => rlpStrEncode (natToBE n)
  | .int i => rlpStrEncode (natToBE i.toNat)
  | .str s => rlpStrEncode (strToBytes s)
  | .bytes b => rlpStrEncode b
  | .list xs =>
    let payload := rlpEncodeEach xs
    rlpLenHeader 192 payload.length ++ payload

/-- Concatenated encodings of a list of values. -/
def rlpEncodeEach : List EncodeObject → List Nat
  | [] => []
  | x :: xs => rlpEncode x ++ rlpEncodeEach xs
end

/-- The hash engine (external collaborator): blake256, its keyed variant, and
blake128; each returns a lowercase hex string. All statements quantify over
an arbitrary engine. -/
structure Crypto where
  blake256 : List Nat → List Char
  blake256WithKey : List Nat → List Nat → List Char
  blake128 : List Nat → List Char

/-- Input selector of a signature tag: `"all"` or `"single"`. -/
inductive TagInput where
  | all
  | single
deriving DecidableEq, Repr

/-- Output selector of a signature tag: the literal `"all"` or an array
(only the empty array is legal for the compose transaction). -/
inductive TagOutput where
  | all
  | arr (xs : List Nat)
deriving DecidableEq, Repr

/-- A signature-scope tag, `{ input, output }`. -/
structure SignatureTag where
  input : TagInput
  output : TagOutput
deriving DecidableEq, Repr

/-- Modelled from the spec: `encodeSignatureTag` (in `src/utils.ts`, outside
the provided sources) packs the two selectors into a compact first byte.
The exact bit values are unspecified in the spec; no claim depends on them. -/
def encodeSignatureTag (tag : SignatureTag) : List Nat :=
  [(match tag.input with | .all => 0 | .single => 1) +
    (match tag.output with | .all => 2 | .arr _ => 0)]

/-- Error taxonomy of the spec for the paths exercised here. The TypeScript
code throws untyped `Error` values; the spec's §7 names classify them:
`missingIndex` covers a single-input tag without a numeric index and an
out-of-range index (where the source dereferences `undefined` and crashes),
`invalidSignatureTag` covers an output selector that is neither `"all"` nor
the empty array. -/
inductive Err where
  | missingIndex
  | invalidSignatureTag
deriving DecidableEq, Repr

/-- JSON form of an AssetOutPoint, from `AssetOutPoint.ts`: note it carries
only the four mandatory fields — the optional `lockScriptHash` and
`parameters` have no JSON counterpart. -/
structure AssetOutPointJSON where
  transactionHash : List Char
  index : Nat
  assetType : List Char
  amount : List Char
deriving DecidableEq, Repr

/-- Reference to a previously created asset, from `AssetOutPoint.ts`. -/
structure AssetOutPoint where
  transactionHash : H256
  index : Nat
  assetType : H256
  amount : U64
  lockScriptHash : Option H160
  parameters : Option (List (List Nat))
deriving DecidableEq, Repr

/-- Translation of `AssetOutPoint.fromJSON`: builds the out-point from the four JSON fields;
the optional fields are never populated. -/
def AssetOutPoint.fromJSON (data : AssetOutPointJSON) : AssetOutPoint :=
  { transactionHash := ⟨data.transactionHash⟩
    index := data.index
    assetType := ⟨data.assetType⟩
    amount := U64.ensureHex data.amount
    lockScriptHash := none
    parameters := none }

/-- Translation of `AssetOutPoint.toJSON`: emits the four mandatory fields, `amount` as a
`0x`-prefixed hex string; drops `lockScriptHash` and `parameters`. -/
def AssetOutPoint.toJSON (p : AssetOutPoint) : AssetOutPointJSON :=
  { transactionHash := p.transactionHash.value
    index := p.index
    assetType := p.assetType.value
    amount := '0' :: 'x' :: natToHex p.amount.value }

/-- Translation of `AssetOutPoint.toEncodeObject`: `[transactionHash, index, assetType,
amount]` with the H256 values as byte strings and the integers minimal. -/
def AssetOutPoint.toEncodeObject (p : AssetOutPoint) : EncodeObject :=
  .list [ .bytes (hexToBytes p.transactionHash.value),
          .nat p.index,
          .bytes (hexToBytes p.assetType.value),
          .nat p.amount.value ]

/-- JSON form of an AssetTransferInput. Modelled from the spec (the class
file is outside the provided sources): the prev-out JSON plus the two script
byte arrays. -/
structure AssetTransferInputJSON where
  prevOut : AssetOutPointJSON
  lockScript : List Nat
  unlockScript : List Nat
deriving DecidableEq, Repr

/-- Modelled from the spec: `AssetTransferInput` — a prev-out reference plus
lock/unlock script byte strings. -/
structure AssetTransferInput where
  prevOut : AssetOutPoint
  lockScript : List Nat
  unlockScript : List Nat
deriving DecidableEq, Repr

/-- Modelled from the spec: `withoutScript()` produces a copy with both
script fields cleared. -/
def AssetTransferInput.withoutScript (i : AssetTransferInput) : AssetTransferInput :=
  { prevOut := i.prevOut, lockScript := [], unlockScript := [] }

/-- Modelled from the spec: an input's encode object, prev-out first then the
two scripts as byte strings. -/
def AssetTransferInput.toEncodeObject (i : AssetTransferInput) : EncodeObject :=
  .list [ i.prevOut.toEncodeObject, .bytes i.lockScript, .bytes i.unlockScript ]

/-- Modelled from the spec: `AssetTransferInput.fromJSON`, delegating the
prev-out to `AssetOutPoint.fromJSON`. -/
def AssetTransferInput.fromJSON (j : AssetTransferInputJSON) : AssetTransferInput :=
  { prevOut := AssetOutPoint.fromJSON j.prevOut
    lockScript := j.lockScript
    unlockScript := j.unlockScript }

/-- Modelled from the spec: `AssetTransferInput.toJSON`, delegating the
prev-out to `AssetOutPoint.toJSON`. -/
def AssetTransferInput.toJSON (i : AssetTransferInput) : AssetTransferInputJSON :=
  { prevOut := i.prevOut.toJSON
    lockScript := i.lockScript
    unlockScript := i.unlockScript }

/-- JSON form of an AssetMintOutput. Modelled from the spec: lock script hash
and parameters verbatim, amount as an optional hex string. -/
structure AssetMintOutputJSON where
  lockScriptHash : List Char
  parameters : List (List Nat)
  amount : Option (List Char)
deriving DecidableEq, Repr

/-- Modelled from the spec: `AssetMintOutput` — `{lockScriptHash, parameters,
amount}` with a nullable amount. -/
structure AssetMintOutput where
  lockScriptHash : H160
  parameters : List (List Nat)
  amount : Option U64
deriving DecidableEq, Repr

/-- Modelled from the spec: `AssetMintOutput.fromJSON`. -/
def AssetMintOutput.fromJSON (j : AssetMintOutputJSON) : AssetMintOutput :=
  { lockScriptHash := ⟨j.lockScriptHash⟩
    parameters := j.parameters
    amount := j.amount.map U64.ensureHex }

/-- Modelled from the spec: `AssetMintOutput.toJSON`. -/
def AssetMintOutput.toJSON (o : AssetMintOutput) : AssetMintOutputJSON :=
  { lockScriptHash := o.lockScriptHash.value
    parameters := o.parameters
    amount := o.amount.map (fun a => '0' :: 'x' :: natToHex a.value) }

/-- Modelled from the spec: an Asset record as synthesized by
`getComposedAsset` (type, lock script hash, parameters, amount, plus the
originating transaction hash and output index). -/
structure Asset where
  assetType : H256
  lockScriptHash : H160
  parameters : List (List Nat)
  amount : U64
  transactionHash : H256
  transactionOutputIndex : Nat
deriving DecidableEq, Repr

/-- Modelled from the spec: `Asset.createTransferInput` packages the asset's
own slot as a prev-out with empty scripts (used by `addInputs`). -/
def Asset.createTransferInput (a : Asset) : AssetTransferInput :=
  { prevOut :=
      { transactionHash := a.transactionHash
        index := a.transactionOutputIndex
        assetType := a.assetType
        amount := a.amount
        lockScriptHash := some a.lockScriptHash
        parameters := some a.parameters }
    lockScript := []
    unlockScript := [] }

/-- One pool entry of an AssetScheme: an asset type with its summed amount. -/
structure PoolEntry where
  assetType : H256
  amount : U64
deriving DecidableEq, Repr

/-- Modelled from the spec: the AssetScheme record synthesized by
`getAssetScheme`. -/
structure AssetScheme where
  networkId : String
  shardId : Int
  metadata : String
  amount : U64
  approver : Option PlatformAddress
  administrator : Option PlatformAddress
  pool : List PoolEntry
deriving DecidableEq, Repr

/-- JSON form of an AssetComposeTransaction, from
`AssetComposeTransaction.ts` (the constant `type` marker plus the data
fields; optional addresses are `string | null`). -/
structure AssetComposeTransactionJSON where
  type : String
  networkId : String
  shardId : Int
  metadata : String
  inputs : List AssetTransferInputJSON
  output : AssetMintOutputJSON
  approver : Option String
  administrator : Option String
deriving DecidableEq, Repr

/-- The compose transaction, from `AssetComposeTransaction.ts`. The shard id
is a JavaScript number, modelled as an unconstrained integer. -/
structure AssetComposeTransaction where
  networkId : String
  shardId : Int
  metadata : String
  approver : Option PlatformAddress
  administrator : Option PlatformAddress
  inputs : List AssetTransferInput
  output : AssetMintOutput
deriving DecidableEq, Repr

namespace AssetComposeTransaction

/-- Translation of `AssetComposeTransaction.fromJSON`: rebuilds the transaction from the
data fields, ensuring the optional addresses and delegating inputs/output to
their own `fromJSON`. -/
def fromJSON (obj : AssetComposeTransactionJSON) : AssetComposeTransaction :=
  { networkId := obj.networkId
    shardId := obj.shardId
    metadata := obj.metadata
    approver := obj.approver.map PlatformAddress.ensure
    administrator := obj.administrator.map PlatformAddress.ensure
    inputs := obj.inputs.map AssetTransferInput.fromJSON
    output := AssetMintOutput.fromJSON obj.output }

/-- Translation of `AssetComposeTransaction.toJSON`: the `"assetCompose"` marker plus the
data fields, with the optional addresses rendered by `toString`. -/
def toJSON (tx : AssetComposeTransaction) : AssetComposeTransactionJSON :=
  { type := "assetCompose"
    networkId := tx.networkId
    shardId := tx.shardId
    metadata := tx.metadata
    approver := tx.approver.map (fun a => a.value)
    administrator := tx.administrator.map (fun a => a.value)
    output := tx.output.toJSON
    inputs := tx.inputs.map AssetTransferInput.toJSON }

/-- Translation of `toEncodeObject`: the fixed field order of the compose variant —
discriminant 6, networkId, shardId, metadata, the two optional addresses as
0-or-1-element lists, the inputs' encode objects, then the output's lock
script hash, parameters and optional amount (again as a 0-or-1-element
list). -/
def toEncodeObject (tx : AssetComposeTransaction) : List EncodeObject :=
  [ .nat 6,
    .str tx.networkId,
    .int tx.shardId,
    .str tx.metadata,
    .list (match tx.approver with
      | some a => [EncodeObject.str a.value]
      | none => []),
    .list (match tx.administrator with
      | some a => [EncodeObject.str a.value]
      | none => []),
    .list (tx.inputs.map AssetTransferInput.toEncodeObject),
    .bytes (hexToBytes tx.output.lockScriptHash.value),
    .list (tx.output.parameters.map (fun p => EncodeObject.bytes p)),
    .list (match tx.output.amount with
      | some a => [EncodeObject.nat a.value]
      | none => []) ]

/-- Translation of `rlpBytes()`: the canonical encoding of the encode-object list. -/
def rlpBytes (tx : AssetComposeTransaction) : List Nat :=
  rlpEncode (.list tx.toEncodeObject)

/-- Translation of `hash()`: blake256 of the canonical bytes, as an H256. -/
def txHash (c : Crypto) (tx : AssetComposeTransaction) : H256 :=
  ⟨c.blake256 tx.rlpBytes⟩

end AssetComposeTransaction

/-- The optional `params` argument of `hashWithoutScript`: a signature tag
plus an optional input index (a JavaScript number; absent values destructure
to `null`). -/
structure HashParams where
  tag : SignatureTag
  index : Option Int
deriving DecidableEq, Repr

/-- The placeholder output substituted when the tag's output selector is the
empty array: all-zero 160-bit lock script hash, no parameters, null amount. -/
def placeholderOutput : AssetMintOutput :=
  { lockScriptHash := ⟨List.replicate 40 '0'⟩, parameters := [], amount := none }

namespace AssetComposeTransaction

/-- Translation of `hashWithoutScript(params?)` from `AssetComposeTransaction.ts`: default
tag `{input: "all", output: "all"}`; the input selector strips scripts from
all inputs or keeps a single script-stripped input (a missing or out-of-range
index fails — the source throws on a non-numeric index and crashes
dereferencing `undefined` on an out-of-range one, both filed under
`missingIndex` by the spec's taxonomy); the output selector keeps the real
output, substitutes the placeholder for the empty array, and rejects
anything else; finally the rebuilt transaction's canonical bytes are hashed
with the key blake128(encodeSignatureTag(tag)). -/
def hashWithoutScript (c : Crypto) (tx : AssetComposeTransaction)
    (params : Option HashParams) : Except Err H256 :=
  let tag : SignatureTag :=
    match params with
    | none => { input := .all, output := .all }
    | some p => p.tag
  let index : Option Int :=
    match params with
    | none => none
    | some p => p.index
  do
  let inputs ← (match tag.input with
    | TagInput.all => Except.ok (tx.inputs.map AssetTransferInput.withoutScript)
    | TagInput.single =>
      match index with
      | none => Except.error Err.missingIndex
      | some i =>
        if h : 0 ≤ i ∧ i < (tx.inputs.length : Int) then
          Except.ok [(tx.inputs.get ⟨i.toNat, by omega⟩).withoutScript]
        else
          Except.error Err.missingIndex)
  let output ← (match tag.output with
    | TagOutput.all => Except.ok tx.output
    | TagOutput.arr [] => Except.ok placeholderOutput
    | TagOutput.arr (_ :: _) => Except.error Err.invalidSignatureTag)
  pure (H256.mk (c.blake256WithKey
    (rlpBytes { networkId := tx.networkId, shardId := tx.shardId,
                metadata := tx.metadata, approver := tx.approver,
                administrator := tx.administrator,
                inputs := inputs, output := output })
    (hexToBytes (c.blake128 (encodeSignatureTag tag)))))

end AssetComposeTransaction

/-- Spec-side description of the tag's input transformation (§4.4 step 2):
`"all"` strips scripts from every input; `"single"` requires an index and
keeps exactly `inputs[index]`, script-stripped, dropping every other input. -/
def tagInputsSpec (tx : AssetComposeTransaction) (sel : TagInput)
    (index : Option Int) : Except Err (List AssetTransferInput) :=
  match sel with
  | TagInput.all => Except.ok (tx.inputs.map AssetTransferInput.withoutScript)
  | TagInput.single =>
    match index with
    | none => Except.error Err.missingIndex
    | some i =>
      if h : 0 ≤ i ∧ i < (tx.inputs.length : Int) then
        Except.ok [(tx.inputs.get ⟨i.toNat, by omega⟩).withoutScript]
      else
        Except.error Err.missingIndex

/-- Spec-side description of the tag's output transformation (§4.4 step 3):
`"all"` keeps the real output, the empty sequence substitutes the canonical
placeholder, and any other value is an `InvalidSignatureTag` error. -/
def tagOutputSpec (tx : AssetComposeTransaction) (sel : TagOutput) :
    Except Err AssetMintOutput :=
  match sel with
  | TagOutput.all => Except.ok tx.output
  | TagOutput.arr [] => Except.ok placeholderOutput
  | TagOutput.arr (_ :: _) => Except.error Err.invalidSignatureTag

/-- Spec-side rebuild (§4.4 step 4): a transaction of the same kind with the
same scalar fields and the substituted inputs and output. -/
def rebuiltTx (tx : AssetComposeTransaction) (inputs : List AssetTransferInput)
    (output : AssetMintOutput) : AssetComposeTransaction :=
  { tx with inputs := inputs, output := output }

/-- Spec-side final step (§4.4 step 5): hash the rebuilt transaction's
canonical bytes keyed with the 128-bit hash of the encoded tag. -/
def keyedHash (c : Crypto) (tx : AssetComposeTransaction) (tag : SignatureTag) : H256 :=
  H256.mk (c.blake256WithKey tx.rlpBytes
    (hexToBytes (c.blake128 (encodeSignatureTag tag))))

/-- The tag in effect for a `hashWithoutScript` call: the given one, or the
default `{input: "all", output: "all"}` when no parameters are given. -/
def paramsTag (params : Option HashParams) : SignatureTag :=
  match params with
  | none => { input := .all, output := .all }
  | some p => p.tag

/-- The index in effect for a `hashWithoutScript` call (absent values
destructure to `null`). -/
def paramsIndex (params : Option HashParams) : Option Int :=
  match params with
  | none => none
  | some p => p.index

/-- Spec-side composition of the whole `hashWithoutScript` algorithm, written
from the spec's words for comparison with the source translation. -/
def hashWithoutScriptSpec (c : Crypto) (tx : AssetComposeTransaction)
    (params : Option HashParams) : Except Err H256 :=
  do
  let inputs ← tagInputsSpec tx (paramsTag params).input (paramsIndex params)
  let output ← tagOutputSpec tx (paramsTag params).output
  pure (keyedHash c (rebuiltTx tx inputs output) (paramsTag params))

/-- JavaScript `ToInt32`: reduce modulo 2^32 into `[-2^31, 2^31)`. -/
def toInt32 (x : Int) : Int :=
  if x % 4294967296 < 2147483648 then x % 4294967296
  else x % 4294967296 - 4294967296

/-- Two-digit lowercase hex form of a byte value, as computed by the source's
`("0" + x.toString(16)).slice(-2)` for `x` in `[0, 255]`. -/
def natToHex2 (n : Nat) : List Char :=
  [digitChar (n / 16 % 16), digitChar (n % 16)]

/-- Translation of `convertU16toHex` from `AssetComposeTransaction.ts`: the high byte
`(id >> 8) & 0xff` followed by the low byte `id & 0xff`, each as two hex
digits, under JavaScript's 32-bit signed semantics for `>>` and `&`
(`/` here is division rounding toward negative infinity — which Euclidean
division by the positive constant 256 is — and `% 256` yields the
non-negative low 8 bits of the two's-complement value, both matching the
JavaScript operators on the 32-bit value). -/
def convertU16toHex (id : Int) : List Char :=
  natToHex2 ((toInt32 id / 256 % 256).toNat) ++ natToHex2 ((toInt32 id % 256).toNat)

/-- JavaScript `String.prototype.replace` with the regular expression
`^.{k}` where `k` is the replacement's length: overwrite the first `k`
characters when the string has at least `k`, otherwise leave it unchanged. -/
def overwriteHead (s : List Char) (p : List Char) : List Char :=
  if p.length ≤ s.length then p ++ s.drop p.length else s

/-- Key of the asset-scheme address derivation: eight `0x00` bytes then
eight `0xff` bytes. -/
def schemeAddressKey : List Nat :=
  [0, 0, 0, 0, 0, 0, 0, 0, 255, 255, 255, 255, 255, 255, 255, 255]

/-- Key of the asset-address derivation: sixteen `0x00` bytes. -/
def assetAddressKey : List Nat :=
  List.replicate 16 0

namespace AssetComposeTransaction

/-- Translation of `getAssetSchemeAddress()`: keyed blake256 of the transaction hash's hex
string (the code passes `hash().value`, so the ASCII hex characters are the
message) under the 00*8 ff*8 key, with the leading characters overwritten by
`"5300"` plus the shard prefix. -/
def getAssetSchemeAddress (c : Crypto) (tx : AssetComposeTransaction) : H256 :=
  H256.mk (overwriteHead
    (c.blake256WithKey (charsToBytes (txHash c tx).value) schemeAddressKey)
    ('5' :: '3' :: '0' :: '0' :: convertU16toHex tx.shardId))

/-- Translation of `getAssetAddress()`: keyed blake256 of the transaction hash's hex string
under the all-zero key, with the leading characters overwritten by `"4100"`
plus the shard prefix. -/
def getAssetAddress (c : Crypto) (tx : AssetComposeTransaction) : H256 :=
  H256.mk (overwriteHead
    (c.blake256WithKey (charsToBytes (txHash c tx).value) assetAddressKey)
    ('4' :: '1' :: '0' :: '0' :: convertU16toHex tx.shardId))

/-- Translation of `getComposedAsset()`: fails with `"not implemented"` when the output
amount is null (the `amount == null ? U64.MAX_VALUE : amount` ternary below
that guard is unreachable in its null branch); otherwise the Asset record
typed by the scheme address at output index 0. -/
def getComposedAsset (c : Crypto) (tx : AssetComposeTransaction) : Except String Asset :=
  match tx.output.amount with
  | none => Except.error "not implemented"
  | some a =>
    Except.ok
      { assetType := getAssetSchemeAddress c tx
        lockScriptHash := tx.output.lockScriptHash
        parameters := tx.output.parameters
        amount := a
        transactionHash := txHash c tx
        transactionOutputIndex := 0 }

end AssetComposeTransaction

/-- One step of the pool-summation reduce: add the input's amount into the
accumulator entry for its asset type. A JavaScript object keyed by the hex
string is modelled as an insertion-ordered association list: updating an
existing key keeps its position, a new key is appended. An absent entry
counts as zero (modelled from the spec's summing-by-type contract; `U64` and
`U64.plus` are outside the provided sources). -/
def updateAssoc : List (List Char × U64) → List Char → U64 → List (List Char × U64)
  | [], k, v => [(k, v)]
  | (k', v') :: rest, k, v =>
    if k' = k then (k', ⟨v'.value + v.value⟩) :: rest
    else (k', v') :: updateAssoc rest k v

/-- The reduce of `getAssetScheme` over one input. -/
def poolStep (acc : List (List Char × U64)) (i : AssetTransferInput) :
    List (List Char × U64) :=
  updateAssoc acc i.prevOut.assetType.value i.prevOut.amount

/-- The accumulated per-type sums over all inputs, in first-occurrence
order (`_.toPairs` of the reduce's object). -/
def poolFold (inputs : List AssetTransferInput) : List (List Char × U64) :=
  inputs.foldl poolStep []

namespace AssetComposeTransaction

/-- Translation of `getAssetScheme()`: fails with `"not implemented"` when the output
amount is null; otherwise the AssetScheme whose pool lists, per distinct
input asset type, the summed input amount. -/
def getAssetScheme (tx : AssetComposeTransaction) : Except String AssetScheme :=
  match tx.output.amount with
  | none => Except.error "not implemented"
  | some a =>
    Except.ok
      { networkId := tx.networkId
        shardId := tx.shardId
        metadata := tx.metadata
        amount := a
        approver := tx.approver
        administrator := tx.administrator
        pool := (poolFold tx.inputs).map (fun kv => { assetType := ⟨kv.1⟩, amount := kv.2 }) }

end AssetComposeTransaction

/-- An argument to `addInputs`: either a transfer input or an Asset (the
source checks `instanceof` and converts the latter through
`createTransferInput`; the closed sum makes the unreachable else branch
vanish). -/
inductive AddInput where
  | input (i : AssetTransferInput)
  | asset (a : Asset)
deriving DecidableEq, Repr

/-- The conversion `addInputs` applies to each argument. -/
def convertAddInput : AddInput → AssetTransferInput
  | .input i => i
  | .asset a => a.createTransferInput

namespace AssetComposeTransaction

/-- Translation of `addInputs`: the source pushes each converted argument onto
`this.inputs` and returns `this` — so the returned transaction IS the
receiver after the call, with the arguments appended to its inputs. -/
def addInputs (tx : AssetComposeTransaction) (l : List AddInput) : AssetComposeTransaction :=
  { tx with inputs := tx.inputs ++ l.map convertAddInput }

end AssetComposeTransaction

/-- The operations of the compose transaction, used to state which of them
leave the receiver unchanged. -/
inductive TxOp where
  | hashOp
  | hashWithoutScriptOp (params : Option HashParams)
  | toJSONOp
  | toEncodeObjectOp
  | rlpBytesOp
  | getAssetSchemeOp
  | getComposedAssetOp
  | getAssetSchemeAddressOp
  | getAssetAddressOp
  | addInputsOp (l : List AddInput)

/-- The receiver after invoking an operation: the translation of each source
method records its writes to `this`. Every method except `addInputs` only
reads the fields; `addInputs` pushes onto `this.inputs` and returns `this`. -/
def receiverAfter (tx : AssetComposeTransaction) : TxOp → AssetComposeTransaction
  | .hashOp => tx
  | .hashWithoutScriptOp _ => tx
  | .toJSONOp => tx
  | .toEncodeObjectOp => tx
  | .rlpBytesOp => tx
  | .getAssetSchemeOp => tx
  | .getComposedAssetOp => tx
  | .getAssetSchemeAddressOp => tx
  | .getAssetAddressOp => tx
  | .addInputsOp l => tx.addInputs l

theorem hexVal_digitChar (d : Nat) (h : d < 16) : hexVal (digitChar d) = d := by
  interval_cases d <;> rfl

theorem hexToNat_append_digit (a : List Char) (c : Char) :
    hexToNat (a ++ [c]) = hexToNat a * 16 + hexVal c := by
  simp [hexToNat, List.foldl_append]

theorem hexToNat_natToHex (n : Nat) : hexToNat (natToHex n) = n := by
  induction n using Nat.strong_induction_on with
  | _ n ih =>
    rw [natToHex]
    by_cases h : n < 16
    · rw [if_pos h]
      simp [hexToNat, hexVal_digitChar n h]
    · rw [if_neg h]
      rw [hexToNat_append_digit]
      rw [ih (n / 16) (by omega)]
      rw [hexVal_digitChar (n % 16) (by omega)]
      omega

theorem U64_ensureHex_roundtrip (a : U64) :
    U64.ensureHex ('0' :: 'x' :: natToHex a.value) = a := by
  cases a with
  | mk v => simp [U64.ensureHex, hexToNat_natToHex]

theorem convertU16toHex_length (id : Int) : (convertU16toHex id).length = 4 := by
  simp [convertU16toHex, natToHex2]

/-- The source translation and the spec-side composition of
`hashWithoutScript` agree on every call (shared refinement lemma). -/
theorem hws_eq_spec (c : Crypto) (tx : AssetComposeTransaction)
    (params : Option HashParams) :
    tx.hashWithoutScript c params = hashWithoutScriptSpec c tx params := by
  cases params <;> rfl

/-- A fixed hash engine used to evaluate statements on concrete inputs. -/
def cryptoTest : Crypto :=
  { blake256 := fun _ => List.replicate 64 'a'
    blake256WithKey := fun _ _ => List.replicate 64 'b'
    blake128 := fun _ => List.replicate 32 'c' }

/-- A concrete out-point (optional fields absent). -/
def outPointW : AssetOutPoint :=
  { transactionHash := ⟨['1']⟩
    index := 0
    assetType := ⟨['a']⟩
    amount := ⟨30⟩
    lockScriptHash := none
    parameters := none }

/-- A concrete input with non-empty scripts. -/
def inpW : AssetTransferInput :=
  { prevOut := outPointW, lockScript := [1], unlockScript := [2] }

/-- A second input of the same asset type with amount 70. -/
def inpW2 : AssetTransferInput :=
  { prevOut := { outPointW with amount := ⟨70⟩ }, lockScript := [], unlockScript := [] }

/-- A concrete compose transaction with one input and output amount 100. -/
def txW : AssetComposeTransaction :=
  { networkId := "tc"
    shardId := 258
    metadata := "m"
    approver := none
    administrator := none
    inputs := [inpW]
    output := { lockScriptHash := ⟨['f']⟩, parameters := [], amount := some ⟨100⟩ } }

/-- The same transaction with two inputs of one asset type, amounts 30 and 70. -/
def txW2 : AssetComposeTransaction :=
  { txW with inputs := [inpW, inpW2] }

/-- The same transaction with a null output amount. -/
def txNone : AssetComposeTransaction :=
  { txW with output := { lockScriptHash := ⟨['f']⟩, parameters := [], amount := none } }

/-- C1: for every AssetComposeTransaction and every accepted signature tag
(defaulting to `{input: "all", output: "all"}` when no parameters are given),
`hashWithoutScript` returns `hash256WithKey(e, k)` where `e` is the canonical
encoding of a rebuilt transaction of the same kind with the same scalar
fields and the tag-transformed inputs and output, and `k` is
`hash128(encodeSignatureTag(tag))` — stated as: every call equals the
spec-side composition `keyedHash` of `rebuiltTx` over the tag transforms,
and the no-parameter call equals the call with the default tag. -/
theorem c1_hash_without_script_is_keyed_hash_of_rebuilt (c : Crypto)
    (tx : AssetComposeTransaction) (params : Option HashParams) :
    tx.hashWithoutScript c params = hashWithoutScriptSpec c tx params ∧
    tx.hashWithoutScript c none =
      tx.hashWithoutScript c
        (some { tag := { input := TagInput.all, output := TagOutput.all }, index := none }) :=
  ⟨hws_eq_spec c tx params, rfl⟩

/-- C3: with `tag.input = "single"`, `hashWithoutScript` fails with
`MissingIndex` when the index is absent or out of range (negative or at
least the number of inputs); with a valid index the rebuilt transaction's
input list is exactly the one script-stripped element `inputs[index]`. -/
theorem c3_single_input_tag (c : Crypto) (tx : AssetComposeTransaction)
    (o : TagOutput) :
    (tx.hashWithoutScript c
        (some { tag := { input := .single, output := o }, index := none }) =
      Except.error Err.missingIndex) ∧
    (∀ i : Int, i < 0 ∨ (tx.inputs.length : Int) ≤ i →
      tx.hashWithoutScript c
          (some { tag := { input := .single, output := o }, index := some i }) =
        Except.error Err.missingIndex) ∧
    (∀ (i : Int) (hi : 0 ≤ i) (hl : i < (tx.inputs.length : Int))
        (out : AssetMintOutput), tagOutputSpec tx o = Except.ok out →
      tx.hashWithoutScript c
          (some { tag := { input := .single, output := o }, index := some i }) =
        Except.ok (keyedHash c
          (rebuiltTx tx [(tx.inputs.get ⟨i.toNat, by omega⟩).withoutScript] out)
          { input := .single, output := o })) := by
  refine ⟨rfl, ?_, ?_⟩
  · intro i h
    have hc : ¬(0 ≤ i ∧ i < (tx.inputs.length : Int)) := by omega
    rw [hws_eq_spec]
    simp only [hashWithoutScriptSpec, paramsTag, paramsIndex, tagInputsSpec]
    rw [dif_neg hc]
    rfl
  · intro i hi hl out ho
    have hc : 0 ≤ i ∧ i < (tx.inputs.length : Int) := ⟨hi, hl⟩
    rw [hws_eq_spec]
    simp only [hashWithoutScriptSpec, paramsTag, paramsIndex, tagInputsSpec]
    rw [dif_pos hc]
    simp only [ho]
    rfl

/-- C3 witness: on the concrete transaction, an out-of-range index 5 fails
with MissingIndex and index 0 hashes the rebuilt transaction whose input
list is exactly the one script-stripped input. -/
theorem c3_single_input_tag_witness :
    (txW.hashWithoutScript cryptoTest
        (some { tag := { input := .single, output := .all }, index := some 5 }) =
      Except.error Err.missingIndex) ∧
    (txW.hashWithoutScript cryptoTest
        (some { tag := { input := .single, output := .all }, index := some 0 }) =
      Except.ok (keyedHash cryptoTest
        (rebuiltTx txW [(txW.inputs.get ⟨(0 : Int).toNat, by decide⟩).withoutScript] txW.output)
        { input := .single, output := .all })) :=
  ⟨(c3_single_input_tag cryptoTest txW .all).2.1 5 (by decide),
   (c3_single_input_tag cryptoTest txW .all).2.2 0 (by decide) (by decide) txW.output rfl⟩

/-- C4: with `tag.output = "all"` the rebuilt transaction keeps the real
output; with the empty sequence it substitutes the canonical placeholder
(all-zero 160-bit lock script hash, empty parameters, null amount); any
other value (a non-empty array) fails with `InvalidSignatureTag`. -/
theorem c4_output_tag_handling (c : Crypto) (tx : AssetComposeTransaction) :
    (tx.hashWithoutScript c
        (some { tag := { input := .all, output := .all }, index := none }) =
      Except.ok (keyedHash c
        (rebuiltTx tx (tx.inputs.map AssetTransferInput.withoutScript) tx.output)
        { input := .all, output := .all })) ∧
    (tx.hashWithoutScript c
        (some { tag := { input := .all, output := .arr [] }, index := none }) =
      Except.ok (keyedHash c
        (rebuiltTx tx (tx.inputs.map AssetTransferInput.withoutScript) placeholderOutput)
        { input := .all, output := .arr [] })) ∧
    placeholderOutput =
      { lockScriptHash := ⟨List.replicate 40 '0'⟩, parameters := [], amount := none } ∧
    (∀ (x : Nat) (xs : List Nat),
      tx.hashWithoutScript c
          (some { tag := { input := .all, output := .arr (x :: xs) }, index := none }) =
        Except.error Err.invalidSignatureTag) :=
  ⟨rfl, rfl, rfl, fun _ _ => rfl⟩

/-- C5: `toEncodeObject()` is exactly the ordered ten-element list —
discriminant 6, networkId, shardId, metadata, approver and administrator as
0-or-1-element lists of their string forms, the inputs' encode objects, the
output's lock script hash, parameters, and amount as a 0-or-1-element list. -/
theorem c5_to_encode_object_layout (tx : AssetComposeTransaction) :
    tx.toEncodeObject =
      [ .nat 6,
        .str tx.networkId,
        .int tx.shardId,
        .str tx.metadata,
        .list (match tx.approver with
          | some a => [EncodeObject.str a.value]
          | none => []),
        .list (match tx.administrator with
          | some a => [EncodeObject.str a.value]
          | none => []),
        .list (tx.inputs.map AssetTransferInput.toEncodeObject),
        .bytes (hexToBytes tx.output.lockScriptHash.value),
        .list (tx.output.parameters.map (fun p => EncodeObject.bytes p)),
        .list (match tx.output.amount with
          | some a => [EncodeObject.nat a.value]
          | none => []) ] :=
  rfl

theorem overwriteHead_eq (s p : List Char) (h : p.length ≤ s.length) :
    overwriteHead s p = p ++ s.drop p.length :=
  if_pos h

theorem convertU16toHex_mod (id : Int) :
    convertU16toHex id =
      natToHex2 ((id % 65536).toNat / 256) ++ natToHex2 ((id % 65536).toNat % 256) := by
  unfold convertU16toHex toInt32
  split_ifs with h
  · have ha : (id % 4294967296 / 256 % 256).toNat = (id % 65536).toNat / 256 := by omega
    have hb : (id % 4294967296 % 256).toNat = (id % 65536).toNat % 256 := by omega
    rw [ha, hb]
  · have ha : ((id % 4294967296 - 4294967296) / 256 % 256).toNat =
        (id % 65536).toNat / 256 := by omega
    have hb : ((id % 4294967296 - 4294967296) % 256).toNat =
        (id % 65536).toNat % 256 := by omega
    rw [ha, hb]

/-- C10: for every integer shardId, the 4-hex-digit shard prefix produced by
`convertU16toHex` (and embedded by both address derivations) equals the
big-endian hexadecimal form of `shardId mod 2^16` — the two bytes
`(shardId >> 8) & 0xff` and `shardId & 0xff`; values outside `[0, 65535]`
are not rejected (the function is total and always yields 4 digits), and the
result depends only on the low 16 bits. -/
theorem c10_shard_id_prefix (id : Int) :
    convertU16toHex id =
      natToHex2 ((id % 65536).toNat / 256) ++ natToHex2 ((id % 65536).toNat % 256) ∧
    convertU16toHex id = convertU16toHex (id % 65536) ∧
    (convertU16toHex id).length = 4 := by
  refine ⟨convertU16toHex_mod id, ?_, convertU16toHex_length id⟩
  rw [convertU16toHex_mod id, convertU16toHex_mod (id % 65536)]
  have h : (id % 65536 % 65536).toNat = (id % 65536).toNat := by omega
  rw [h]

/-- C2: both address derivations equal the keyed hash of the transaction
hash (scheme key 00*8 ff*8, asset key all-zero) with the leading 8 hex
digits overwritten by `"5300"`/`"4100"` plus the big-endian shard-id hex and
the rest unchanged; hence the two are distinct and each is stable across
repeated calls. Stated for any hash engine whose keyed digests are 64 hex
characters. -/
theorem c2_address_derivation (c : Crypto) (tx : AssetComposeTransaction)
    (hk : ∀ m k, (c.blake256WithKey m k).length = 64) :
    tx.getAssetSchemeAddress c =
      H256.mk ('5' :: '3' :: '0' :: '0' ::
        (convertU16toHex tx.shardId ++
          (c.blake256WithKey (charsToBytes (tx.txHash c).value) schemeAddressKey).drop 8)) ∧
    tx.getAssetAddress c =
      H256.mk ('4' :: '1' :: '0' :: '0' ::
        (convertU16toHex tx.shardId ++
          (c.blake256WithKey (charsToBytes (tx.txHash c).value) assetAddressKey).drop 8)) ∧
    tx.getAssetSchemeAddress c ≠ tx.getAssetAddress c ∧
    tx.getAssetSchemeAddress c = tx.getAssetSchemeAddress c ∧
    tx.getAssetAddress c = tx.getAssetAddress c := by
  have h4 := convertU16toHex_length tx.shardId
  have hp5 : ('5' :: '3' :: '0' :: '0' :: convertU16toHex tx.shardId).length = 8 := by
    simp [h4]
  have hp4 : ('4' :: '1' :: '0' :: '0' :: convertU16toHex tx.shardId).length = 8 := by
    simp [h4]
  have e1 : tx.getAssetSchemeAddress c =
      H256.mk ('5' :: '3' :: '0' :: '0' ::
        (convertU16toHex tx.shardId ++
          (c.blake256WithKey (charsToBytes (tx.txHash c).value) schemeAddressKey).drop 8)) := by
    unfold AssetComposeTransaction.getAssetSchemeAddress
    rw [overwriteHead_eq _ _ (by rw [hp5, hk]; omega)]
    rw [hp5]
    simp
  have e2 : tx.getAssetAddress c =
      H256.mk ('4' :: '1' :: '0' :: '0' ::
        (convertU16toHex tx.shardId ++
          (c.blake256WithKey (charsToBytes (tx.txHash c).value) assetAddressKey).drop 8)) := by
    unfold AssetComposeTransaction.getAssetAddress
    rw [overwriteHead_eq _ _ (by rw [hp4, hk]; omega)]
    rw [hp4]
    simp
  refine ⟨e1, e2, ?_, rfl, rfl⟩
  rw [e1, e2]
  intro h
  have hv := congrArg H256.value h
  simp only [List.cons.injEq] at hv
  exact absurd hv.1 (by decide)

/-- C2 witness: the concrete engine returns 64-character digests and the
two addresses of the concrete transaction take the stated forms and differ. -/
theorem c2_address_derivation_witness :
    (∀ m k, (cryptoTest.blake256WithKey m k).length = 64) ∧
    (txW.getAssetSchemeAddress cryptoTest =
      H256.mk ('5' :: '3' :: '0' :: '0' ::
        (convertU16toHex txW.shardId ++
          (cryptoTest.blake256WithKey (charsToBytes (txW.txHash cryptoTest).value)
            schemeAddressKey).drop 8)) ∧
    txW.getAssetAddress cryptoTest =
      H256.mk ('4' :: '1' :: '0' :: '0' ::
        (convertU16toHex txW.shardId ++
          (cryptoTest.blake256WithKey (charsToBytes (txW.txHash cryptoTest).value)
            assetAddressKey).drop 8)) ∧
    txW.getAssetSchemeAddress cryptoTest ≠ txW.getAssetAddress cryptoTest ∧
    txW.getAssetSchemeAddress cryptoTest = txW.getAssetSchemeAddress cryptoTest ∧
    txW.getAssetAddress cryptoTest = txW.getAssetAddress cryptoTest) :=
  ⟨fun _ _ => by simp [cryptoTest],
   c2_address_derivation cryptoTest txW (fun _ _ => by simp [cryptoTest])⟩

/-- C6 counterexample: on a transaction whose output amount is null,
`getComposedAsset` raises `Error("not implemented")` — it does not return an
Asset with the U64 maximum-value sentinel as the claim states. -/
theorem c6_composed_asset_counterexample :
    txNone.getComposedAsset cryptoTest = Except.error "not implemented" ∧
    (∀ a : Asset, txNone.getComposedAsset cryptoTest ≠ Except.ok a) :=
  ⟨rfl, fun a h => by simp [AssetComposeTransaction.getComposedAsset, txNone, txW] at h⟩

/-- C6 as amended: `getComposedAsset` raises an error when the output amount
is null; for a non-null output amount it returns the Asset whose assetType
is `getAssetSchemeAddress()`, whose transactionHash is the transaction's
hash, whose output index is 0, and whose amount is the output amount. -/
theorem c6_composed_asset (c : Crypto) (tx : AssetComposeTransaction) (a : U64)
    (h : tx.output.amount = some a) :
    tx.getComposedAsset c =
      Except.ok
        { assetType := tx.getAssetSchemeAddress c
          lockScriptHash := tx.output.lockScriptHash
          parameters := tx.output.parameters
          amount := a
          transactionHash := tx.txHash c
          transactionOutputIndex := 0 } ∧
    (∀ b, tx.output.amount = none → tx.getComposedAsset c ≠ Except.ok b) := by
  constructor
  · unfold AssetComposeTransaction.getComposedAsset
    rw [h]
  · intro b hn
    rw [hn] at h
    exact absurd h (by simp)

/-- C6 witness: on the concrete transaction with output amount 100 the
composed Asset takes the stated form. -/
theorem c6_composed_asset_witness :
    txW.output.amount = some ⟨100⟩ ∧
    (txW.getComposedAsset cryptoTest =
      Except.ok
        { assetType := txW.getAssetSchemeAddress cryptoTest
          lockScriptHash := txW.output.lockScriptHash
          parameters := txW.output.parameters
          amount := ⟨100⟩
          transactionHash := txW.txHash cryptoTest
          transactionOutputIndex := 0 } ∧
    (∀ b, txW.output.amount = none → txW.getComposedAsset cryptoTest ≠ Except.ok b)) :=
  ⟨rfl, c6_composed_asset cryptoTest txW ⟨100⟩ rfl⟩

/-- C9 counterexample: `addInputs` does not leave the receiver's fields
unchanged — the source pushes onto `this.inputs` and returns `this`, so
after the call the receiver of the concrete transaction has one more input. -/
theorem c9_immutability_counterexample :
    receiverAfter txW (TxOp.addInputsOp [AddInput.input inpW2]) ≠ txW := by
  intro h
  have hv := congrArg AssetComposeTransaction.inputs h
  simp [receiverAfter, AssetComposeTransaction.addInputs, txW] at hv

/-- C9 as amended: every listed operation except `addInputs` leaves the
receiver's fields unchanged (each is a pure function of the fields);
`addInputs` returns the receiver with the converted arguments appended to
its `inputs` field and every other field unchanged. -/
theorem c9_receiver_mutation (tx : AssetComposeTransaction) :
    receiverAfter tx TxOp.hashOp = tx ∧
    (∀ p, receiverAfter tx (TxOp.hashWithoutScriptOp p) = tx) ∧
    receiverAfter tx TxOp.toJSONOp = tx ∧
    receiverAfter tx TxOp.toEncodeObjectOp = tx ∧
    receiverAfter tx TxOp.rlpBytesOp = tx ∧
    receiverAfter tx TxOp.getAssetSchemeOp = tx ∧
    receiverAfter tx TxOp.getComposedAssetOp = tx ∧
    receiverAfter tx TxOp.getAssetSchemeAddressOp = tx ∧
    receiverAfter tx TxOp.getAssetAddressOp = tx ∧
    (∀ l, receiverAfter tx (TxOp.addInputsOp l) =
      { networkId := tx.networkId
        shardId := tx.shardId
        metadata := tx.metadata
        approver := tx.approver
        administrator := tx.administrator
        inputs := tx.inputs ++ l.map convertAddInput
        output := tx.output }) :=
  ⟨rfl, fun _ => rfl, rfl, rfl, rfl, rfl, rfl, rfl, rfl, fun _ => rfl⟩

/-- A concrete out-point with the optional `lockScriptHash` field present. -/
def outPointX : AssetOutPoint :=
  { outPointW with lockScriptHash := some ⟨['0']⟩ }

/-- C8 counterexample: an out-point constructed with the optional
`lockScriptHash` present does not round-trip — `toJSON` has no field for it
and `fromJSON` never populates it. -/
theorem c8_json_roundtrip_counterexample :
    AssetOutPoint.fromJSON outPointX.toJSON ≠ outPointX := by
  intro h
  have hv := congrArg AssetOutPoint.lockScriptHash h
  simp [AssetOutPoint.fromJSON, AssetOutPoint.toJSON, outPointX, outPointW] at hv

theorem outPoint_roundtrip (p : AssetOutPoint) (h1 : p.lockScriptHash = none)
    (h2 : p.parameters = none) : AssetOutPoint.fromJSON p.toJSON = p := by
  obtain ⟨⟨th⟩, i, ⟨ty⟩, ⟨am⟩, ls, pr⟩ := p
  subst h1
  subst h2
  simp [AssetOutPoint.fromJSON, AssetOutPoint.toJSON, U64.ensureHex, hexToNat_natToHex]

theorem input_roundtrip (i : AssetTransferInput)
    (h1 : i.prevOut.lockScriptHash = none) (h2 : i.prevOut.parameters = none) :
    AssetTransferInput.fromJSON i.toJSON = i := by
  obtain ⟨p, ls, us⟩ := i
  simp only [AssetTransferInput.fromJSON, AssetTransferInput.toJSON]
  rw [outPoint_roundtrip p h1 h2]

theorem mintOutput_roundtrip (o : AssetMintOutput) :
    AssetMintOutput.fromJSON o.toJSON = o := by
  obtain ⟨⟨ls⟩, ps, am⟩ := o
  cases am with
  | none => rfl
  | some a =>
    obtain ⟨v⟩ := a
    simp [AssetMintOutput.fromJSON, AssetMintOutput.toJSON, U64.ensureHex,
      hexToNat_natToHex]

/-- C8 as amended: `fromJSON(toJSON(x)) = x` holds field-for-field for every
AssetOutPoint whose optional `lockScriptHash`/`parameters` fields are absent,
and for every AssetComposeTransaction whose inputs' prev-outs have those
fields absent; an out-point constructed with an optional field present loses
it (the JSON form has no slot for it). -/
theorem c8_json_roundtrip :
    (∀ p : AssetOutPoint, p.lockScriptHash = none → p.parameters = none →
      AssetOutPoint.fromJSON p.toJSON = p) ∧
    (∀ tx : AssetComposeTransaction,
      (∀ i ∈ tx.inputs, i.prevOut.lockScriptHash = none ∧ i.prevOut.parameters = none) →
      AssetComposeTransaction.fromJSON tx.toJSON = tx) := by
  constructor
  · exact outPoint_roundtrip
  · intro tx h
    obtain ⟨nid, sid, md, ap, ad, ins, out⟩ := tx
    have hin : (ins.map AssetTransferInput.toJSON).map AssetTransferInput.fromJSON = ins := by
      induction ins with
      | nil => rfl
      | cons i rest ih =>
        simp only [List.map_cons, List.cons.injEq]
        refine ⟨input_roundtrip i (h i (by simp)).1 (h i (by simp)).2, ?_⟩
        exact ih (fun j hj => h j (by simp [hj]))
    have hap : (ap.map (fun a => a.value)).map PlatformAddress.ensure = ap := by
      cases ap <;> rfl
    have had : (ad.map (fun a => a.value)).map PlatformAddress.ensure = ad := by
      cases ad <;> rfl
    simp only [AssetComposeTransaction.toJSON, AssetComposeTransaction.fromJSON]
    simp [hin, hap, had, mintOutput_roundtrip out]

/-- C8 witness: the concrete out-point (optional fields absent) and the
concrete transaction round-trip exactly. -/
theorem c8_json_roundtrip_witness :
    outPointW.lockScriptHash = none ∧ outPointW.parameters = none ∧
    AssetOutPoint.fromJSON outPointW.toJSON = outPointW ∧
    (∀ i ∈ txW.inputs, i.prevOut.lockScriptHash = none ∧ i.prevOut.parameters = none) ∧
    AssetComposeTransaction.fromJSON txW.toJSON = txW :=
  ⟨rfl, rfl, c8_json_roundtrip.1 outPointW rfl rfl,
   fun i hi => by
     simp [txW, inpW] at hi
     subst hi
     exact ⟨rfl, rfl⟩,
   c8_json_roundtrip.2 txW (fun i hi => by
     simp [txW, inpW] at hi
     subst hi
     exact ⟨rfl, rfl⟩)⟩

/-- Lookup in the association-list model of the summation object. -/
def lookupA : List (List Char × U64) → List Char → Option U64
  | [], _ => none
  | (k', v') :: rest, k => if k' = k then some v' else lookupA rest k

/-- Lookup defaulting to zero (a key absent from the object sums from 0). -/
def lookup0 (l : List (List Char × U64)) (k : List Char) : Nat :=
  match lookupA l k with
  | some v => v.value
  | none => 0

/-- Spec-side per-type sum: the total amount of the inputs whose prev-out
asset type has the given hex value. -/
def sumAmounts (inputs : List AssetTransferInput) (t : List Char) : Nat :=
  ((inputs.filter (fun i => i.prevOut.assetType.value = t)).map
    (fun i => i.prevOut.amount.value)).sum

theorem lookupA_updateAssoc_self (acc : List (List Char × U64)) (k : List Char)
    (v : U64) : lookupA (updateAssoc acc k v) k = some ⟨lookup0 acc k + v.value⟩ := by
  induction acc with
  | nil => simp [updateAssoc, lookupA, lookup0]
  | cons hd rest ih =>
    obtain ⟨k1, v1⟩ := hd
    by_cases h1 : k1 = k
    · subst h1
      simp [updateAssoc, lookupA, lookup0]
    · simp [updateAssoc, h1, lookupA, lookup0, ih]

theorem lookupA_updateAssoc_ne (acc : List (List Char × U64)) (k t : List Char)
    (v : U64) (h : t ≠ k) : lookupA (updateAssoc acc k v) t = lookupA acc t := by
  have hkt : ¬k = t := fun hh => h hh.symm
  induction acc with
  | nil => simp [updateAssoc, lookupA, hkt]
  | cons hd rest ih =>
    obtain ⟨k1, v1⟩ := hd
    by_cases h1 : k1 = k
    · rw [show updateAssoc ((k1, v1) :: rest) k v
          = (k1, ⟨v1.value + v.value⟩) :: rest from by simp [updateAssoc, h1]]
      by_cases h2 : k1 = t
      · exact absurd (h1 ▸ h2) hkt
      · simp [lookupA, h2]
    · rw [show updateAssoc ((k1, v1) :: rest) k v
          = (k1, v1) :: updateAssoc rest k v from by simp [updateAssoc, h1]]
      simp [lookupA, ih]

theorem lookup0_updateAssoc (acc : List (List Char × U64)) (k t : List Char)
    (v : U64) :
    lookup0 (updateAssoc acc k v) t =
      if t = k then lookup0 acc t + v.value else lookup0 acc t := by
  by_cases h : t = k
  · subst h
    simp [lookup0, lookupA_updateAssoc_self]
  · simp [lookup0, lookupA_updateAssoc_ne acc k t v h, h]

theorem mem_keys_updateAssoc (acc : List (List Char × U64)) (k t : List Char)
    (v : U64) :
    t ∈ (updateAssoc acc k v).map Prod.fst ↔ t ∈ acc.map Prod.fst ∨ t = k := by
  induction acc with
  | nil => simp [updateAssoc]
  | cons hd rest ih =>
    obtain ⟨k1, v1⟩ := hd
    by_cases h1 : k1 = k
    · rw [show updateAssoc ((k1, v1) :: rest) k v
          = (k1, ⟨v1.value + v.value⟩) :: rest from by simp [updateAssoc, h1]]
      simp only [List.map_cons, List.mem_cons]
      constructor
      · intro hm
        rcases hm with hh | hh
        · exact Or.inl (Or.inl hh)
        · exact Or.inl (Or.inr hh)
      · intro hm
        rcases hm with (hh | hh) | hh
        · exact Or.inl hh
        · exact Or.inr hh
        · exact Or.inl (hh.trans h1.symm)
    · rw [show updateAssoc ((k1, v1) :: rest) k v
          = (k1, v1) :: updateAssoc rest k v from by simp [updateAssoc, h1]]
      simp only [List.map_cons, List.mem_cons, ih]
      tauto

theorem nodup_keys_updateAssoc (acc : List (List Char × U64)) (k : List Char)
    (v : U64) (h : (acc.map Prod.fst).Nodup) :
    ((updateAssoc acc k v).map Prod.fst).Nodup := by
  induction acc with
  | nil => simp [updateAssoc]
  | cons hd rest ih =>
    obtain ⟨k1, v1⟩ := hd
    simp only [List.map_cons, List.nodup_cons] at h
    by_cases h1 : k1 = k
    · rw [show updateAssoc ((k1, v1) :: rest) k v
          = (k1, ⟨v1.value + v.value⟩) :: rest from by simp [updateAssoc, h1]]
      simp only [List.map_cons, List.nodup_cons]
      exact h
    · rw [show updateAssoc ((k1, v1) :: rest) k v
          = (k1, v1) :: updateAssoc rest k v from by simp [updateAssoc, h1]]
      simp only [List.map_cons, List.nodup_cons]
      refine ⟨?_, ih h.2⟩
      intro hm
      rcases (mem_keys_updateAssoc rest k k1 v).1 hm with hh | hh
      · exact h.1 hh
      · exact h1 hh

theorem sumAmounts_cons (i : AssetTransferInput) (rest : List AssetTransferInput)
    (t : List Char) :
    sumAmounts (i :: rest) t =
      (if i.prevOut.assetType.value = t then i.prevOut.amount.value else 0) +
        sumAmounts rest t := by
  unfold sumAmounts
  rw [List.filter_cons]
  by_cases h : i.prevOut.assetType.value = t <;> simp [h]

theorem lookup0_foldl (l : List AssetTransferInput)
    (acc : List (List Char × U64)) (t : List Char) :
    lookup0 (l.foldl poolStep acc) t = lookup0 acc t + sumAmounts l t := by
  induction l generalizing acc with
  | nil => simp [sumAmounts]
  | cons i rest ih =>
    rw [List.foldl_cons, ih, sumAmounts_cons]
    unfold poolStep
    rw [lookup0_updateAssoc]
    by_cases h : t = i.prevOut.assetType.value
    · rw [if_pos h, if_pos h.symm]
      omega
    · rw [if_neg h, if_neg (fun hh => h hh.symm)]
      omega

theorem mem_keys_foldl (l : List AssetTransferInput)
    (acc : List (List Char × U64)) (t : List Char) :
    t ∈ (l.foldl poolStep acc).map Prod.fst ↔
      t ∈ acc.map Prod.fst ∨ ∃ i ∈ l, i.prevOut.assetType.value = t := by
  induction l generalizing acc with
  | nil =>
    simp only [List.foldl_nil]
    constructor
    · intro hm
      exact Or.inl hm
    · intro hm
      rcases hm with hh | ⟨i, hi, _⟩
      · exact hh
      · exact absurd hi (List.not_mem_nil i)
  | cons i rest ih =>
    rw [List.foldl_cons, ih]
    unfold poolStep
    rw [mem_keys_updateAssoc]
    constructor
    · intro hm
      rcases hm with (hh | hh) | hh
      · exact Or.inl hh
      · exact Or.inr ⟨i, by simp, hh.symm⟩
      · rcases hh with ⟨j, hj, hjt⟩
        exact Or.inr ⟨j, by simp [hj], hjt⟩
    · intro hm
      rcases hm with hh | ⟨j, hj, hjt⟩
      · exact Or.inl (Or.inl hh)
      · rcases List.mem_cons.1 hj with hji | hji
        · subst hji
          exact Or.inl (Or.inr hjt.symm)
        · exact Or.inr ⟨j, hji, hjt⟩

theorem nodup_keys_foldl (l : List AssetTransferInput)
    (acc : List (List Char × U64)) (h : (acc.map Prod.fst).Nodup) :
    ((l.foldl poolStep acc).map Prod.fst).Nodup := by
  induction l generalizing acc with
  | nil => exact h
  | cons i rest ih =>
    rw [List.foldl_cons]
    exact ih _ (nodup_keys_updateAssoc _ _ _ h)

theorem lookupA_eq_of_mem (l : List (List Char × U64)) (k : List Char) (v : U64) :
    (l.map Prod.fst).Nodup → (k, v) ∈ l → lookupA l k = some v := by
  induction l with
  | nil => intro _ h; cases h
  | cons hd rest ih =>
    intro hnd h
    obtain ⟨k1, v1⟩ := hd
    simp only [List.map_cons, List.nodup_cons] at hnd
    rcases List.mem_cons.1 h with hh | hh
    · have hk : k = k1 := congrArg Prod.fst hh
      have hv : v = v1 := congrArg Prod.snd hh
      subst hk
      subst hv
      simp [lookupA]
    · have hkm : k ∈ rest.map Prod.fst := List.mem_map_of_mem Prod.fst hh
      have hk1 : ¬k1 = k := fun he => hnd.1 (he ▸ hkm)
      simp [lookupA, hk1, ih hnd.2 hh]

/-- C7: for a non-null output amount, `getAssetScheme()` returns an
AssetScheme whose pool has pairwise-distinct asset types and contains, for
each asset type occurring among the inputs' prev-outs, exactly one entry
whose amount is the sum of that type's input amounts. -/
theorem c7_asset_scheme_pool (tx : AssetComposeTransaction) (a : U64)
    (h : tx.output.amount = some a) :
    ∃ s, tx.getAssetScheme = Except.ok s ∧
      (s.pool.map (fun e => e.assetType.value)).Nodup ∧
      (∀ e ∈ s.pool, e.amount.value = sumAmounts tx.inputs e.assetType.value) ∧
      (∀ t, (∃ i ∈ tx.inputs, i.prevOut.assetType.value = t) ↔
        ∃ e ∈ s.pool, e.assetType.value = t) := by
  have hs : tx.getAssetScheme = Except.ok
      { networkId := tx.networkId
        shardId := tx.shardId
        metadata := tx.metadata
        amount := a
        approver := tx.approver
        administrator := tx.administrator
        pool := (poolFold tx.inputs).map
          (fun kv => { assetType := ⟨kv.1⟩, amount := kv.2 }) } := by
    unfold AssetComposeTransaction.getAssetScheme
    rw [h]
  refine ⟨_, hs, ?_, ?_, ?_⟩
  · have hnd := nodup_keys_foldl tx.inputs [] (by simp)
    rw [List.map_map]
    exact hnd
  · intro e he
    rcases List.mem_map.1 he with ⟨kv, hkv, rfl⟩
    show kv.2.value = sumAmounts tx.inputs kv.1
    have hnd := nodup_keys_foldl tx.inputs [] (by simp)
    have hl := lookupA_eq_of_mem (poolFold tx.inputs) kv.1 kv.2 hnd hkv
    have h0 : lookup0 (poolFold tx.inputs) kv.1 = kv.2.value := by
      simp [lookup0, hl]
    have hf := lookup0_foldl tx.inputs [] kv.1
    simp only [lookup0, lookupA, Nat.zero_add] at hf
    rw [show poolFold tx.inputs = tx.inputs.foldl poolStep [] from rfl] at h0
    simp only [lookup0] at h0
    omega
  · intro t
    constructor
    · rintro ⟨i, hi, hit⟩
      have hm : t ∈ (tx.inputs.foldl poolStep []).map Prod.fst :=
        (mem_keys_foldl tx.inputs [] t).2 (Or.inr ⟨i, hi, hit⟩)
      rcases List.mem_map.1 hm with ⟨kv, hkv, hfst⟩
      exact ⟨⟨⟨kv.1⟩, kv.2⟩, List.mem_map_of_mem _ hkv, hfst⟩
    · rintro ⟨e, he, het⟩
      rcases List.mem_map.1 he with ⟨kv, hkv, rfl⟩
      have hm : t ∈ (tx.inputs.foldl poolStep []).map Prod.fst :=
        het ▸ List.mem_map_of_mem Prod.fst hkv
      rcases (mem_keys_foldl tx.inputs [] t).1 hm with hh | hh
      · simp at hh
      · exact hh

/-- C7 witness: the concrete transaction with two inputs of one asset type
and amounts 30 and 70 satisfies the pool properties, and its pool evaluates
to the single entry `[{assetType, amount: 100}]`. -/
theorem c7_asset_scheme_pool_witness :
    txW2.output.amount = some ⟨100⟩ ∧
    (∃ s, txW2.getAssetScheme = Except.ok s ∧
      (s.pool.map (fun e => e.assetType.value)).Nodup ∧
      (∀ e ∈ s.pool, e.amount.value = sumAmounts txW2.inputs e.assetType.value) ∧
      (∀ t, (∃ i ∈ txW2.inputs, i.prevOut.assetType.value = t) ↔
        ∃ e ∈ s.pool, e.assetType.value = t)) ∧
    txW2.getAssetScheme = Except.ok
      { networkId := "tc"
        shardId := 258
        metadata := "m"
        amount := ⟨100⟩
        approver := none
        administrator := none
        pool := [{ assetType := ⟨['a']⟩, amount := ⟨100⟩ }] } :=
  ⟨rfl, c7_asset_scheme_pool txW2 ⟨100⟩ rfl, rfl⟩
